import Mathlib

/-!
Verification of the MongoDB time-series benchmark script
(`src/main.ts` / `src/unnamed/part_000`).

JavaScript numbers are IEEE-754 doubles.  We idealise finite doubles as
exact rationals (`ℚ`) — every concrete value exercised by the claims is
exactly representable and no claim depends on rounding of finite
arithmetic — but we keep the non-finite values `NaN`, `Infinity` and
`-Infinity` explicit, because the spec's edge-case claims (empty input to
`calculateStats`, zero baseline in `calculateImprovement`) hinge on them.
`Math.sqrt` lands in `JsVal ℝ` since square roots of rationals are
irrational in general.
-/

/-- A JavaScript number: a finite value (idealised as an exact scalar),
`NaN`, `Infinity` or `-Infinity`. -/
inductive JsVal (α : Type) where
  | fin (x : α)
  | nan
  | inf
  | ninf
  deriving DecidableEq, Repr

namespace JsVal

/-- JS `+` on numbers. -/
def add : JsVal ℚ → JsVal ℚ → JsVal ℚ
  | nan, _ => nan
  | _, nan => nan
  | inf, ninf => nan
  | ninf, inf => nan
  | inf, _ => inf
  | _, inf => inf
  | ninf, _ => ninf
  | _, ninf => ninf
  | fin a, fin b => fin (a + b)

/-- JS unary minus. -/
def neg : JsVal ℚ → JsVal ℚ
  | nan => nan
  | inf => ninf
  | ninf => inf
  | fin a => fin (-a)

/-- JS `-` on numbers, as `a + (-b)` (matches IEEE: `inf - inf = NaN`). -/
def sub (a b : JsVal ℚ) : JsVal ℚ := add a (neg b)

/-- JS `*` on numbers (`inf * 0 = NaN`). -/
def mul : JsVal ℚ → JsVal ℚ → JsVal ℚ
  | nan, _ => nan
  | _, nan => nan
  | fin a, fin b => fin (a * b)
  | inf, fin b => if 0 < b then inf else if b < 0 then ninf else nan
  | fin a, inf => if 0 < a then inf else if a < 0 then ninf else nan
  | ninf, fin b => if 0 < b then ninf else if b < 0 then inf else nan
  | fin a, ninf => if 0 < a then ninf else if a < 0 then inf else nan
  | inf, inf => inf
  | ninf, ninf => inf
  | inf, ninf => ninf
  | ninf, inf => ninf

/-- JS `/` on numbers (`0/0 = NaN`, `x/0 = ±Infinity` for `x ≠ 0`;
negative zero is not modelled — no call site produces it). -/
def div : JsVal ℚ → JsVal ℚ → JsVal ℚ
  | nan, _ => nan
  | _, nan => nan
  | fin a, fin b =>
      if b ≠ 0 then fin (a / b)
      else if 0 < a then inf else if a < 0 then ninf else nan
  | fin _, inf => fin 0
  | fin _, ninf => fin 0
  | inf, fin b => if 0 ≤ b then inf else ninf
  | ninf, fin b => if 0 ≤ b then ninf else inf
  | inf, inf => nan
  | inf, ninf => nan
  | ninf, inf => nan
  | ninf, ninf => nan

/-- JS `<` on numbers (`NaN` compares false with everything). -/
def ltb : JsVal ℚ → JsVal ℚ → Bool
  | nan, _ => false
  | _, nan => false
  | fin a, fin b => decide (a < b)
  | ninf, ninf => false
  | ninf, _ => true
  | _, ninf => false
  | inf, _ => false
  | fin _, inf => true

/-- JS `Math.abs`. -/
def abs : JsVal ℚ → JsVal ℚ
  | nan => nan
  | inf => inf
  | ninf => inf
  | fin a => fin |a|

end JsVal

/-- JS `Math.sqrt` (negative argument gives `NaN`); the result lives over
`ℝ` since rational arguments have irrational square roots in general. -/
noncomputable def jsSqrt : JsVal ℚ → JsVal ℝ
  | JsVal.fin q => if q < 0 then JsVal.nan else JsVal.fin (Real.sqrt q)
  | JsVal.nan => JsVal.nan
  | JsVal.inf => JsVal.inf
  | JsVal.ninf => JsVal.nan

/-- JS array indexing `l[i]`.  Out-of-bounds access yields `undefined`;
the only out-of-bounds reads in the program (`sorted[-1]`, `sorted[0]` on
an empty sorted array in `calculateStats`) feed directly into arithmetic,
where `undefined` behaves as `NaN`, so we model the access as `nan`. -/
def jsIdx (l : List ℚ) (i : ℤ) : JsVal ℚ :=
  if h : 0 ≤ i ∧ i.toNat < l.length then JsVal.fin (l.get ⟨i.toNat, h.2⟩)
  else JsVal.nan

/-- `Math.min(...values)`: `Infinity` on no arguments, else the least. -/
def jsMinList : List ℚ → JsVal ℚ
  | [] => JsVal.inf
  | v :: vs => JsVal.fin (vs.foldl min v)

/-- `Math.max(...values)`: `-Infinity` on no arguments, else the greatest. -/
def jsMaxList : List ℚ → JsVal ℚ
  | [] => JsVal.ninf
  | v :: vs => JsVal.fin (vs.foldl max v)

/-- The `Stats` interface returned by `calculateStats`.  All fields are JS
numbers; `stdDev` comes out of `Math.sqrt` so it is carried over `ℝ`. -/
structure Stats where
  mean : JsVal ℚ
  min : JsVal ℚ
  max : JsVal ℚ
  stdDev : JsVal ℝ
  median : JsVal ℚ

/-- `calculateStats` from `src/unnamed/part_000`:

    const sorted = [...values].sort((a, b) => a - b);
    const mean = values.reduce((sum, val) => sum + val, 0) / values.length;
    const variance = values.reduce((sum, val) => sum + Math.pow(val - mean, 2), 0) / values.length;
    const stdDev = Math.sqrt(variance);
    const median = sorted.length % 2 === 0
      ? (sorted[sorted.length / 2 - 1] + sorted[sorted.length / 2]) / 2
      : sorted[Math.floor(sorted.length / 2)];
    return { mean, min: Math.min(...values), max: Math.max(...values), stdDev, median };

The input list holds plain finite numbers (durations), so the reduce over
`values` sums exactly; the division by `values.length` is JS division
(`0 / 0 = NaN` on empty input).  `val - mean` and `Math.pow(·, 2)` are JS
operations because `mean` itself may be `NaN`. -/
noncomputable def calculateStats (values : List ℚ) : Stats :=
  let sorted := List.insertionSort (fun a b => a ≤ b) values
  let mean := JsVal.div (JsVal.fin (values.foldl (fun sum val => sum + val) 0))
    (JsVal.fin (values.length : ℚ))
  let variance := JsVal.div
    (values.foldl
      (fun sum val => JsVal.add sum
        (JsVal.mul (JsVal.sub (JsVal.fin val) mean) (JsVal.sub (JsVal.fin val) mean)))
      (JsVal.fin 0))
    (JsVal.fin (values.length : ℚ))
  let stdDev := jsSqrt variance
  let median :=
    if sorted.length % 2 = 0 then
      JsVal.div
        (JsVal.add (jsIdx sorted ((sorted.length : ℤ) / 2 - 1))
          (jsIdx sorted ((sorted.length : ℤ) / 2)))
        (JsVal.fin 2)
    else
      jsIdx sorted ((sorted.length : ℤ) / 2)
  { mean := mean, min := jsMinList values, max := jsMaxList values,
    stdDev := stdDev, median := median }

/-- JS `x.toFixed(1)` for a finite number: round half-up to one decimal
digit (the ECMA spec picks the larger candidate integer on ties, which is
Mathlib's `round`) and print with exactly one fractional digit. -/
def toFixed1 (q : ℚ) : String :=
  let n : ℤ := round (q * 10)
  (if n < 0 then "-" else "") ++ toString (n.natAbs / 10) ++ "." ++ toString (n.natAbs % 10)

/-- `${x.toFixed(1)}` string interpolation of a JS number. -/
def jsToFixed1 : JsVal ℚ → String
  | JsVal.fin q => toFixed1 q
  | JsVal.nan => "NaN"
  | JsVal.inf => "Infinity"
  | JsVal.ninf => "-Infinity"

/-- The value `((baseline - comparison) / baseline * 100)` computed by
`calculateImprovement` (JS arithmetic: `baseline = 0` gives `NaN` or an
infinity). -/
def improvementValue (baseline comparison : ℚ) : JsVal ℚ :=
  JsVal.mul (JsVal.div (JsVal.fin (baseline - comparison)) (JsVal.fin baseline)) (JsVal.fin 100)

/-- `calculateImprovement` from `src/unnamed/part_000`:

    const improvement = ((baseline - comparison) / baseline * 100);
    if (improvement > 0) return green faster string;
    else if (improvement < 0) return red slower string (Math.abs);
    return yellow equal string;
-/
def calculateImprovement (baseline comparison : ℚ) : String :=
  let improvement := improvementValue baseline comparison
  if JsVal.ltb (JsVal.fin 0) improvement then
    "🟢 " ++ jsToFixed1 improvement ++ "% 更快"
  else if JsVal.ltb improvement (JsVal.fin 0) then
    "🔴 " ++ jsToFixed1 (JsVal.abs improvement) ++ "% 更慢"
  else
    "🟡 相同"

/-- Rendering of `parseFloat(x.toFixed(2))` for a nonnegative finite `x`
given `n = round (x * 100)`: two-decimal rounding with trailing zeros in
the fraction stripped (so `1.00 → "1"`, `1.50 → "1.5"`, `1.05 → "1.05"`). -/
def renderFixed2Trim (n : ℤ) : String :=
  let w := n.natAbs / 100
  let f := n.natAbs % 100
  (if n < 0 then "-" else "") ++
    (if f = 0 then toString w
     else if f % 10 = 0 then toString w ++ "." ++ toString (f / 10)
     else toString w ++ "." ++ (if f < 10 then "0" ++ toString f else toString f))

/-- The unit names array `['Bytes', 'KB', 'MB', 'GB']` of `formatBytes`;
`sizes[i]` for `i ≥ 4` is `undefined`, which stringifies as
`"undefined"`. -/
def byteSizes : List String := ["Bytes", "KB", "MB", "GB"]

/-- `formatBytes` from `src/main.ts` lines 33–39:

    if (bytes === 0) return '0 Bytes';
    const k = 1024;
    const i = Math.floor(Math.log(bytes) / Math.log(k));
    return parseFloat((bytes / Math.pow(k, i)).toFixed(2)) + ' ' + sizes[i];

The input is a collection byte size, a natural number.  Under exact real
arithmetic `Math.floor(Math.log bytes / Math.log 1024) = ⌊logb 1024 bytes⌋
= Nat.log 1024 bytes` for `bytes ≥ 1`; the identification with the real
logarithm is proved in the claim theorem. -/
def formatBytes (bytes : ℕ) : String :=
  if bytes = 0 then "0 Bytes"
  else
    let i := Nat.log 1024 bytes
    renderFixed2Trim (round (((bytes : ℚ) / 1024 ^ i) * 100)) ++ " " ++ byteSizes.getD i "undefined"

/-- The `meta` subdocument of a synthetic record. -/
structure Meta where
  sensor : String
  deriving DecidableEq, Repr

/-- One synthetic record `{ timestamp, value, meta: { sensor } }`.
`timestamp` is a `Date` held as integer milliseconds since the epoch. -/
structure SyntheticRecord where
  timestamp : ℤ
  value : ℚ
  meta : Meta
  deriving DecidableEq, Repr

/-- `generateData` from `src/unnamed/part_000` lines 150–156:

    Array.from({ length: count }, (_, i) => ({
      timestamp: new Date(Date.now() - i * 1000),
      value: Math.random() * 100,
      meta: { sensor: `sensor${i % 5}` }
    }));

`Date.now()` is frozen to the parameter `now` (the spec treats the batch
as a function of `count` and the current wall-clock time) and
`Math.random()` is the oracle `rand`, one draw per index, with range
`[0, 1)` assumed as a hypothesis where needed. -/
def generateData (now : ℤ) (rand : ℕ → ℚ) (count : ℕ) : List SyntheticRecord :=
  (List.range count).map fun (i : ℕ) =>
    { timestamp := now - (i : ℤ) * 1000
      value := rand i * 100
      meta := { sensor := "sensor" ++ toString (i % 5) } }

/-- The observable world threaded through one awaited database call: the
wall clock read by `Date.now()` and the documents of the collection being
exercised. -/
structure World where
  time : ℤ
  docs : List SyntheticRecord

/-- `measureInsertSpeed` from `src/unnamed/part_000` lines 4–8:

    const startTime = Date.now();
    await collection.insertMany(data);
    return Date.now() - startTime;

The awaited `insertMany` call (an external database effect that also
advances the clock) is the parameter `insertEffect`. -/
def measureInsertSpeed (insertEffect : World → World) (w : World) : World × ℤ :=
  let startTime := w.time
  let w2 := insertEffect w
  (w2, w2.time - startTime)

/-- `runMultipleTests` from `src/unnamed/part_000` lines 86–102: run the
async `testFunction` `runs` times in a `for` loop, awaiting each
invocation before starting the next, pushing each result in order.  An
async operation is embedded as a state transformer `σ → σ × T`; the
sequential `await` discipline is the explicit state threading. -/
def runMultipleTests {σ T : Type} (testFunction : σ → σ × T) (runs : ℕ) (s : σ) :
    σ × List T :=
  match runs with
  | 0 => (s, [])
  | n + 1 =>
    let p := testFunction s
    let q := runMultipleTests testFunction n p.1
    (q.1, p.2 :: q.2)

/-- The state reached after `n` sequential invocations of `f` from `s`. -/
def iterState {σ T : Type} (f : σ → σ × T) : ℕ → σ → σ
  | 0, s => s
  | n + 1, s => iterState f n (f s).1

/-- The database state seen by the orchestrator for one data size: the
general collection always exists; the time-series collection may not
(`none`), since it is repeatedly dropped and re-created. -/
structure DbState where
  general : List SyntheticRecord
  timeSeries : Option (List SyntheticRecord)

/-- `collection.drop()`: succeeds (removing the collection) when it
exists, rejects with a namespace-not-found error when it does not. -/
def dropTimeSeries (ts : Option (List SyntheticRecord)) :
    Except String (Option (List SyntheticRecord)) :=
  match ts with
  | some _ => Except.ok none
  | none => Except.error "ns not found"

/-- `collection.drop().catch(() => { })` from the cleanup sites of `run`:
a failed drop is swallowed and leaves the state as it was. -/
def dropTimeSeriesCaught (ts : Option (List SyntheticRecord)) :
    Option (List SyntheticRecord) :=
  match dropTimeSeries ts with
  | Except.ok r => r
  | Except.error _ => ts

/-- `src/unnamed/part_000` lines 209–221, the tail of the insert phase of
`run` for one data size:

    const finalData = generateData(size);
    await generalCollection.deleteMany({});
    await newTimeSeriesCollection.drop().catch(() => { });
    const finalTimeSeriesCollection = await db.createCollection(...);
    await generalCollection.insertMany(finalData);
    await finalTimeSeriesCollection.insertMany(finalData);

`deleteMany({})` empties the general collection, the drop-and-recreate
leaves an empty time-series collection, and `insertMany` appends (it
errors if the collection vanished, hence the `Option.map`). -/
def insertPhaseTail (finalData : List SyntheticRecord) (db : DbState) : DbState :=
  let db1 : DbState := { db with general := [] }
  let db2 : DbState := { db1 with timeSeries := dropTimeSeriesCaught db1.timeSeries }
  let db3 : DbState := { db2 with timeSeries := some [] }
  let db4 : DbState := { db3 with general := db3.general ++ finalData }
  { db4 with timeSeries := db4.timeSeries.map (fun c => c ++ finalData) }

/-- What the operating system observes of the finished process: its exit
code and what, if anything, was written to standard error. -/
structure ProcessOutcome (E : Type) where
  exitCode : ℕ
  stderrLog : Option E
  deriving DecidableEq, Repr

/-- The top-level expression `run().catch(err => console.error(err))`
(`src/unnamed/part_000` line 307 / `src/main.ts` line 158).  A fulfilled
`run()` promise ends the process normally (exit code 0, nothing logged).
A rejected one is handled by the `.catch`: the handler logs the error
object to standard error and resolves, so the rejection is *handled* —
there is no unhandled rejection, and the process also terminates with
exit code 0 once the event loop drains. -/
def topLevelCatch {E : Type} (r : Except E Unit) : ProcessOutcome E :=
  match r with
  | Except.ok _ => { exitCode := 0, stderrLog := none }
  | Except.error e => { exitCode := 0, stderrLog := some e }

/-- Sequential composition of the awaited steps of `run`: each step is
awaited in order and the first rejection short-circuits the rest,
propagating unhandled to the caller of `run()`. -/
def seqSteps {E : Type} (steps : List (Except E Unit)) : Except E Unit :=
  steps.foldl (fun acc step => acc >>= fun _ => step) (Except.ok ())

/-- From the spec's wording for `summarize`: the arithmetic mean. -/
def specMean (values : List ℚ) : ℚ := values.sum / values.length

/-- From the spec's wording: population variance, the average of squared
deviations from the mean. -/
def specVariance (values : List ℚ) : ℚ :=
  (values.map (fun v => (v - specMean values) ^ 2)).sum / values.length

/-- From the spec's wording: the input sorted ascending. -/
def specSorted (values : List ℚ) : List ℚ :=
  List.insertionSort (fun a b => a ≤ b) values

/-- From the spec's wording for the median: sort ascending; even length
averages the two central elements, odd length takes the central one. -/
def specMedian (values : List ℚ) : ℚ :=
  let s := specSorted values
  if s.length % 2 = 0 then (s.getD (s.length / 2 - 1) 0 + s.getD (s.length / 2) 0) / 2
  else s.getD (s.length / 2) 0

/-- The least element of a nonempty list (head-seeded fold, the value
`Math.min(...values)` takes on it). -/
def listMin : List ℚ → ℚ
  | [] => 0
  | v :: vs => vs.foldl min v

/-- The greatest element of a nonempty list. -/
def listMax : List ℚ → ℚ
  | [] => 0
  | v :: vs => vs.foldl max v

/-- Default record used only as the `getD` fallback in statements. -/
def defaultRecord : SyntheticRecord :=
  { timestamp := 0, value := 0, meta := { sensor := "" } }

theorem foldl_bind_error {E : Type} (post : List (Except E Unit)) (e : E) :
    post.foldl (fun acc step => acc >>= fun _ => step) (Except.error e) = Except.error e := by
  induction post with
  | nil => rfl
  | cons s rest ih =>
    have hb : ((Except.error e : Except E Unit) >>= fun _ => s) = Except.error e := rfl
    simpa [List.foldl, hb] using ih

theorem foldl_bind_ok {E : Type} (pre : List (Except E Unit))
    (hpre : ∀ s ∈ pre, s = Except.ok ()) :
    pre.foldl (fun acc step => acc >>= fun _ => step) (Except.ok ()) = Except.ok () := by
  induction pre with
  | nil => rfl
  | cons s rest ih =>
    have hs : s = Except.ok () := hpre s (by simp)
    have hb : ((Except.ok () : Except E Unit) >>= fun _ => s) = Except.ok () := by
      rw [hs]; rfl
    simpa [List.foldl, hb] using ih fun t ht => hpre t (by simp [ht])

theorem generateData_length (now : ℤ) (rand : ℕ → ℚ) (count : ℕ) :
    (generateData now rand count).length = count := by
  simp [generateData]

theorem generateData_getD (now : ℤ) (rand : ℕ → ℚ) (count : ℕ) (i : ℕ) (h : i < count) :
    (generateData now rand count).getD i defaultRecord =
      { timestamp := now - (i : ℤ) * 1000
        value := rand i * 100
        meta := { sensor := "sensor" ++ toString (i % 5) } } := by
  have hlen : i < (generateData now rand count).length := by
    rw [generateData_length]; exact h
  rw [List.getD_eq_getElem _ _ hlen]
  simp [generateData]

/-- C9: on the empty input `calculateStats` has no guard and raises no
error: the `0 / 0` in the mean computation is JS `NaN`, and the `NaN`
propagates into the returned summary (mean, standard deviation and
median are all `NaN`) rather than failing. -/
theorem calculateStats_empty_nan :
    (calculateStats []).mean = JsVal.nan ∧
    (calculateStats []).stdDev = JsVal.nan ∧
    (calculateStats []).median = JsVal.nan :=
  ⟨rfl, rfl, rfl⟩

/-- C8: dropping the time-series collection when it does not exist
rejects, but the `.catch(() => { })` swallows the error; afterwards the
state (collection absent) — and hence every subsequent behaviour — is
identical to the case where the collection existed and was dropped. -/
theorem drop_catch_idempotent :
    (∀ c, dropTimeSeries (some c) = Except.ok none) ∧
    dropTimeSeries (none : Option (List SyntheticRecord)) = Except.error "ns not found" ∧
    (∀ ts, dropTimeSeriesCaught ts = none) ∧
    (∀ (α : Type) (k : Option (List SyntheticRecord) → α) (ts ts2 : Option (List SyntheticRecord)),
      k (dropTimeSeriesCaught ts) = k (dropTimeSeriesCaught ts2)) := by
  refine ⟨fun c => rfl, rfl, ?_, ?_⟩
  · intro ts; cases ts <;> rfl
  · intro α k ts ts2; cases ts <;> cases ts2 <;> rfl

/-- C7 counterexample: a failure inside `run` does propagate to the single
top-level `.catch`, which logs the error object to standard error — but
precisely because the `.catch` handles the rejection, the process
terminates with exit code 0, not the non-zero exit code the claim
states. -/
theorem run_catch_exit_zero_ctex :
    (topLevelCatch (seqSteps [Except.ok (), Except.error "connection failure"])).exitCode = 0 ∧
    (topLevelCatch (seqSteps [Except.ok (), Except.error "connection failure"])).stderrLog =
      some "connection failure" :=
  ⟨rfl, rfl⟩

/-- C7 (amended): any error raised at a step of `run` is unhandled at the
call site and short-circuits the remaining steps, reaching the single
top-level `.catch` handler, which logs the error object to standard
error; since the rejection is thereby handled the process exits with code
0 (not non-zero).  Normal completion also exits 0 with nothing logged. -/
theorem run_catch_spec :
    (∀ (E : Type) (pre post : List (Except E Unit)) (e : E),
      (∀ s ∈ pre, s = Except.ok ()) →
      seqSteps (pre ++ Except.error e :: post) = Except.error e) ∧
    (∀ (E : Type) (e : E),
      topLevelCatch (Except.error e) = { exitCode := 0, stderrLog := some e }) ∧
    (∀ E : Type, topLevelCatch (Except.ok () : Except E Unit) =
      { exitCode := 0, stderrLog := none }) := by
  refine ⟨?_, fun E e => rfl, fun E => rfl⟩
  intro E pre post e hpre
  have h1 : seqSteps (pre ++ Except.error e :: post) =
      (Except.error e :: post).foldl (fun acc step => acc >>= fun _ => step) (Except.ok ()) := by
    rw [seqSteps, List.foldl_append, foldl_bind_ok pre hpre]
  have h2 : ((Except.ok () : Except E Unit) >>= fun _ => (Except.error e : Except E Unit)) =
      Except.error e := rfl
  rw [h1, List.foldl, h2, foldl_bind_error]

/-- C7 witness: a concrete failing pipeline propagates its error through
`seqSteps` to the top-level handler. -/
theorem run_catch_spec_w :
    seqSteps [Except.ok (), Except.error "host down", Except.ok ()] =
      Except.error "host down" :=
  run_catch_spec.1 String [Except.ok ()] [Except.ok ()] "host down" (by simp)

/-- C6: at the point where the insert phase for a given size has completed
(`src/unnamed/part_000` lines 209–221), both the general collection and
the time-series collection hold exactly the `size` documents of the one
freshly generated batch `finalData`, whatever state the collections were
in before. -/
theorem insertPhase_counts :
    ∀ (now : ℤ) (rand : ℕ → ℚ) (size : ℕ) (db : DbState),
      (insertPhaseTail (generateData now rand size) db).general = generateData now rand size ∧
      (insertPhaseTail (generateData now rand size) db).timeSeries =
        some (generateData now rand size) ∧
      (insertPhaseTail (generateData now rand size) db).general.length = size ∧
      ∃ d, (insertPhaseTail (generateData now rand size) db).timeSeries = some d ∧
        d.length = size ∧ (insertPhaseTail (generateData now rand size) db).general = d := by
  intro now rand size db
  have hg : (insertPhaseTail (generateData now rand size) db).general =
      generateData now rand size := by
    simp [insertPhaseTail]
  have ht : (insertPhaseTail (generateData now rand size) db).timeSeries =
      some (generateData now rand size) := by
    simp [insertPhaseTail]
  exact ⟨hg, ht, by rw [hg, generateData_length],
    generateData now rand size, ht, generateData_length now rand size, hg⟩

theorem ltb_zero_asymm (p : JsVal ℚ) (h : JsVal.ltb p (JsVal.fin 0) = true) :
    JsVal.ltb (JsVal.fin 0) p = false := by
  cases p <;> simp_all [JsVal.ltb]
  linarith

/-- C3: `calculateImprovement` computes the JS value
`p = (baseline - comparison) / baseline * 100` (equal to the exact
rational formula whenever `baseline ≠ 0`), and returns the green "faster"
label carrying `p` rendered to one decimal place when `p > 0`, the red
"slower" label carrying `|p|` rendered to one decimal place when `p < 0`,
and the yellow "equal" label when `p == 0`; in particular
`calculateImprovement 100 80` is the faster label at `20.0`,
`calculateImprovement 80 100` the slower label at `25.0`, and
`calculateImprovement 50 50` the equal label. -/
theorem calculateImprovement_spec :
    (∀ baseline comparison : ℚ,
      (baseline ≠ 0 → improvementValue baseline comparison =
        JsVal.fin ((baseline - comparison) / baseline * 100)) ∧
      (JsVal.ltb (JsVal.fin 0) (improvementValue baseline comparison) = true →
        calculateImprovement baseline comparison =
          "🟢 " ++ jsToFixed1 (improvementValue baseline comparison) ++ "% 更快") ∧
      (JsVal.ltb (improvementValue baseline comparison) (JsVal.fin 0) = true →
        calculateImprovement baseline comparison =
          "🔴 " ++ jsToFixed1 (JsVal.abs (improvementValue baseline comparison)) ++ "% 更慢") ∧
      (improvementValue baseline comparison = JsVal.fin 0 →
        calculateImprovement baseline comparison = "🟡 相同")) ∧
    calculateImprovement 100 80 = "🟢 20.0% 更快" ∧
    calculateImprovement 80 100 = "🔴 25.0% 更慢" ∧
    calculateImprovement 50 50 = "🟡 相同" := by
  refine ⟨?_, ?_, ?_, ?_⟩
  · intro baseline comparison
    refine ⟨?_, ?_, ?_, ?_⟩
    · intro hb
      simp [improvementValue, JsVal.div, JsVal.mul, hb]
    · intro h
      simp [calculateImprovement, h]
    · intro h
      simp [calculateImprovement, h, ltb_zero_asymm _ h]
    · intro h
      simp [calculateImprovement, h, JsVal.ltb]
  · have h : improvementValue 100 80 = JsVal.fin 20 := by
      norm_num [improvementValue, JsVal.div, JsVal.mul]
    simp [calculateImprovement, h, JsVal.ltb, jsToFixed1, toFixed1]
    norm_num [round_eq]
    decide
  · have h : improvementValue 80 100 = JsVal.fin (-25) := by
      norm_num [improvementValue, JsVal.div, JsVal.mul]
    simp [calculateImprovement, h, JsVal.ltb, JsVal.abs, jsToFixed1, toFixed1]
    norm_num [round_eq]
    decide
  · have h : improvementValue 50 50 = JsVal.fin 0 := by
      norm_num [improvementValue, JsVal.div, JsVal.mul]
    simp [calculateImprovement, h, JsVal.ltb]

/-- C3 witness: the faster branch taken at the concrete input (100, 80). -/
theorem calculateImprovement_spec_w :
    calculateImprovement 100 80 =
      "🟢 " ++ jsToFixed1 (improvementValue 100 80) ++ "% 更快" := by
  have h : improvementValue 100 80 = JsVal.fin 20 := by
    norm_num [improvementValue, JsVal.div, JsVal.mul]
  exact (calculateImprovement_spec.1 100 80).2.1 (by simp [h, JsVal.ltb])

/-- C10: a zero baseline does not make `calculateImprovement` fail.  With
`comparison = 0` the JS value `(0 - 0) / 0 * 100` is `NaN`, which passes
neither the `> 0` nor the `< 0` test, so the equal label is returned;
with `comparison > 0` the value is `-Infinity` and the slower label is
returned with magnitude `Infinity`. -/
theorem calculateImprovement_zero_baseline :
    improvementValue 0 0 = JsVal.nan ∧
    JsVal.ltb (JsVal.fin 0) JsVal.nan = false ∧
    JsVal.ltb JsVal.nan (JsVal.fin 0) = false ∧
    calculateImprovement 0 0 = "🟡 相同" ∧
    (∀ c : ℚ, 0 < c →
      improvementValue 0 c = JsVal.ninf ∧
      JsVal.abs JsVal.ninf = JsVal.inf ∧
      calculateImprovement 0 c = "🔴 Infinity% 更慢") := by
  have hnan : improvementValue 0 0 = JsVal.nan := by
    norm_num [improvementValue, JsVal.div, JsVal.mul]
  refine ⟨hnan, rfl, rfl, ?_, ?_⟩
  · simp [calculateImprovement, hnan, JsVal.ltb]
  · intro c hc
    have h1 : ¬(0 : ℚ) < -c := by linarith
    have h2 : -c < (0 : ℚ) := by linarith
    have hninf : improvementValue 0 c = JsVal.ninf := by
      simp [improvementValue, JsVal.div, JsVal.mul, h1, h2]
    exact ⟨hninf, rfl, by simp [calculateImprovement, hninf, JsVal.ltb, JsVal.abs, jsToFixed1]⟩

/-- C10 witness: the slower-by-Infinity branch at the concrete input
(0, 1). -/
theorem calculateImprovement_zero_baseline_w :
    calculateImprovement 0 1 = "🔴 Infinity% 更慢" :=
  (calculateImprovement_zero_baseline.2.2.2.2 1 (by norm_num)).2.2

/-- C4: for `bytes = 0` the guard renders literally `"0 Bytes"` without
touching the logarithm; for `0 < bytes < 1024^4` the unit index is
`Nat.log 1024 bytes`, which is exactly `⌊log_1024 bytes⌋` and is the
largest `i` with `bytes / 1024^i ≥ 1` (that is, `1024^i ≤ bytes`), stays
within the unit table `{Bytes, KB, MB, GB}`, and the output is the scaled
value rounded to two decimal places (trailing zeros stripped) followed by
the unit name; in particular `formatBytes 0 = "0 Bytes"`,
`formatBytes 1024 = "1 KB"`, `formatBytes 1536 = "1.5 KB"` and
`formatBytes 1048576 = "1 MB"`. -/
theorem formatBytes_spec :
    (∀ bytes : ℕ, 0 < bytes → bytes < 1024 ^ 4 →
      Nat.log 1024 bytes ≤ 3 ∧
      1024 ^ Nat.log 1024 bytes ≤ bytes ∧
      bytes < 1024 ^ (Nat.log 1024 bytes + 1) ∧
      ⌊Real.logb 1024 (bytes : ℝ)⌋ = (Nat.log 1024 bytes : ℤ) ∧
      formatBytes bytes =
        renderFixed2Trim (round (((bytes : ℚ) / 1024 ^ Nat.log 1024 bytes) * 100)) ++ " " ++
          byteSizes.getD (Nat.log 1024 bytes) "undefined") ∧
    formatBytes 0 = "0 Bytes" ∧
    formatBytes 1024 = "1 KB" ∧
    formatBytes 1536 = "1.5 KB" ∧
    formatBytes 1048576 = "1 MB" := by
  refine ⟨?_, by simp [formatBytes], ?_, ?_, ?_⟩
  · intro bytes h0 h4
    have hne : bytes ≠ 0 := h0.ne'
    refine ⟨?_, Nat.pow_log_le_self 1024 hne, Nat.lt_pow_succ_log_self (by norm_num) bytes,
      ?_, ?_⟩
    · have := Nat.log_lt_of_lt_pow hne h4
      omega
    · have h1 : ⌊Real.logb ((1024 : ℕ) : ℝ) ((bytes : ℕ) : ℝ)⌋ =
          Int.log (1024 : ℕ) ((bytes : ℕ) : ℝ) :=
        Real.floor_logb_natCast (Nat.cast_nonneg bytes)
      simpa [Int.log_natCast] using h1
    · simp [formatBytes, hne]
  · have hl : Nat.log 1024 1024 = 1 :=
      Nat.log_eq_of_pow_le_of_lt_pow (by norm_num) (by norm_num)
    have hr : round (((1024 : ℚ) / 1024) * 100) = 100 := by norm_num [round_eq]
    simp [formatBytes, hl, hr, renderFixed2Trim, byteSizes]
    decide
  · have hl : Nat.log 1024 1536 = 1 :=
      Nat.log_eq_of_pow_le_of_lt_pow (by norm_num) (by norm_num)
    have hr : round (((1536 : ℚ) / 1024) * 100) = 150 := by norm_num [round_eq]
    simp [formatBytes, hl, hr, renderFixed2Trim, byteSizes]
    decide
  · have hl : Nat.log 1024 1048576 = 2 :=
      Nat.log_eq_of_pow_le_of_lt_pow (by norm_num) (by norm_num)
    have hr : round (((1048576 : ℚ) / 1024 ^ 2) * 100) = 100 := by norm_num [round_eq]
    simp [formatBytes, hl, hr, renderFixed2Trim, byteSizes]
    decide

/-- C4 witness: the general unit-selection facts at the concrete input
1536. -/
theorem formatBytes_spec_w :
    1024 ^ Nat.log 1024 1536 ≤ 1536 ∧ 1536 < 1024 ^ (Nat.log 1024 1536 + 1) :=
  ⟨(formatBytes_spec.1 1536 (by norm_num) (by norm_num)).2.1,
   (formatBytes_spec.1 1536 (by norm_num) (by norm_num)).2.2.1⟩

theorem runMultipleTests_length {σ T : Type} (f : σ → σ × T) (runs : ℕ) (s : σ) :
    (runMultipleTests f runs s).2.length = runs := by
  induction runs generalizing s with
  | zero => rfl
  | succ n ih => simp [runMultipleTests, ih]

theorem runMultipleTests_fst {σ T : Type} (f : σ → σ × T) (runs : ℕ) (s : σ) :
    (runMultipleTests f runs s).1 = iterState f runs s := by
  induction runs generalizing s with
  | zero => rfl
  | succ n ih => simp [runMultipleTests, iterState, ih]

theorem runMultipleTests_getElem {σ T : Type} (f : σ → σ × T) (runs : ℕ) (s : σ)
    (i : ℕ) (h : i < runs) :
    (runMultipleTests f runs s).2[i]? = some ((f (iterState f i s)).2) := by
  induction runs generalizing s i with
  | zero => omega
  | succ n ih =>
    cases i with
    | zero => simp [runMultipleTests, iterState]
    | succ j =>
      have hj : j < n := by omega
      simpa [runMultipleTests, iterState] using ih (f s).1 j hj

theorem runMultipleTests_mem_nonneg (insertEffect : World → World)
    (hmono : ∀ w, w.time ≤ (insertEffect w).time) (runs : ℕ) (w : World) (r : ℤ)
    (hr : r ∈ (runMultipleTests (measureInsertSpeed insertEffect) runs w).2) : 0 ≤ r := by
  induction runs generalizing w with
  | zero => simp [runMultipleTests] at hr
  | succ n ih =>
    simp only [runMultipleTests, List.mem_cons] at hr
    rcases hr with hr | hr
    · have := hmono w
      simp only [measureInsertSpeed] at hr
      omega
    · exact ih _ hr

/-- C5: `runMultipleTests` executes the wrapped operation exactly `runs`
times strictly sequentially — the `i`-th recorded result is the output of
the invocation started from the state left by the previous `i`
invocations, and the final state is the `runs`-fold iterate, so no two
invocations overlap — and returns the `runs` elapsed values in invocation
order; when the operation is the timed insert wrapper over any
clock-monotone insert effect every returned duration is `≥ 0`, and with
`runs = 5` exactly 5 such values come back. -/
theorem runMultipleTests_spec :
    (∀ (σ T : Type) (f : σ → σ × T) (runs : ℕ) (s : σ),
      (runMultipleTests f runs s).2.length = runs ∧
      (runMultipleTests f runs s).1 = iterState f runs s ∧
      (∀ i, i < runs →
        (runMultipleTests f runs s).2[i]? = some ((f (iterState f i s)).2))) ∧
    (∀ (insertEffect : World → World),
      (∀ w, w.time ≤ (insertEffect w).time) →
      ∀ (runs : ℕ) (w : World) (r : ℤ),
        r ∈ (runMultipleTests (measureInsertSpeed insertEffect) runs w).2 → 0 ≤ r) ∧
    (∀ (insertEffect : World → World),
      (∀ w, w.time ≤ (insertEffect w).time) →
      ∀ w : World,
        (runMultipleTests (measureInsertSpeed insertEffect) 5 w).2.length = 5 ∧
        ∀ r ∈ (runMultipleTests (measureInsertSpeed insertEffect) 5 w).2, 0 ≤ r) := by
  refine ⟨fun σ T f runs s =>
      ⟨runMultipleTests_length f runs s, runMultipleTests_fst f runs s,
        fun i h => runMultipleTests_getElem f runs s i h⟩,
    fun ins hm runs w r hr => runMultipleTests_mem_nonneg ins hm runs w r hr,
    fun ins hm w =>
      ⟨runMultipleTests_length _ 5 w,
        fun r hr => runMultipleTests_mem_nonneg ins hm 5 w r hr⟩⟩

/-- C5 witness: five sequential timed runs of a concrete clock-advancing
insert effect give exactly 5 durations, all nonnegative. -/
theorem runMultipleTests_spec_w :
    (runMultipleTests (measureInsertSpeed fun w => { w with time := w.time + 2 }) 5
        { time := 0, docs := [] }).2.length = 5 ∧
    ∀ r ∈ (runMultipleTests (measureInsertSpeed fun w => { w with time := w.time + 2 }) 5
        { time := 0, docs := [] }).2, 0 ≤ r :=
  runMultipleTests_spec.2.2 (fun w => { w with time := w.time + 2 })
    (fun w => by simp) { time := 0, docs := [] }

/-- C2: for every positive `count`, `generateData` returns exactly
`count` records of the form `{timestamp, value, meta: {sensor}}`; the
timestamp at index `i` is `now - i` seconds (one second earlier per index
offset), so timestamps are strictly decreasing in the index and pairwise
distinct; each value is `Math.random() * 100 ∈ [0, 100)`; and the sensor
tag is `"sensor" ++ (i % 5)`, cycling with period 5. -/
theorem generateData_spec :
    ∀ (now : ℤ) (rand : ℕ → ℚ) (count : ℕ), 0 < count →
      (∀ i, 0 ≤ rand i ∧ rand i < 1) →
      (generateData now rand count).length = count ∧
      (∀ i, i < count →
        (generateData now rand count).getD i defaultRecord =
          { timestamp := now - (i : ℤ) * 1000
            value := rand i * 100
            meta := { sensor := "sensor" ++ toString (i % 5) } }) ∧
      (∀ i, i < count →
        0 ≤ ((generateData now rand count).getD i defaultRecord).value ∧
        ((generateData now rand count).getD i defaultRecord).value < 100) ∧
      (∀ i j, i < j → j < count →
        ((generateData now rand count).getD j defaultRecord).timestamp <
          ((generateData now rand count).getD i defaultRecord).timestamp) ∧
      (∀ i j, i < j → j < count →
        ((generateData now rand count).getD i defaultRecord).timestamp ≠
          ((generateData now rand count).getD j defaultRecord).timestamp) ∧
      (∀ i, i + 5 < count →
        ((generateData now rand count).getD (i + 5) defaultRecord).meta.sensor =
          ((generateData now rand count).getD i defaultRecord).meta.sensor) := by
  intro now rand count hc hr
  have hts : ∀ i, i < count →
      ((generateData now rand count).getD i defaultRecord).timestamp =
        now - (i : ℤ) * 1000 := by
    intro i h
    rw [generateData_getD now rand count i h]
  have hdec : ∀ i j, i < j → j < count →
      ((generateData now rand count).getD j defaultRecord).timestamp <
        ((generateData now rand count).getD i defaultRecord).timestamp := by
    intro i j hij hj
    rw [hts i (lt_trans hij hj), hts j hj]
    have : (i : ℤ) < (j : ℤ) := by exact_mod_cast hij
    omega
  refine ⟨generateData_length now rand count,
    fun i h => generateData_getD now rand count i h, ?_, hdec, ?_, ?_⟩
  · intro i h
    rw [generateData_getD now rand count i h]
    have h1 := (hr i).1
    have h2 := (hr i).2
    constructor
    · positivity
    · calc rand i * 100 < 1 * 100 := by
            exact mul_lt_mul_of_pos_right h2 (by norm_num)
        _ = 100 := by norm_num
  · intro i j hij hj
    exact ne_of_gt (hdec i j hij hj)
  · intro i h
    rw [generateData_getD now rand count (i + 5) h,
      generateData_getD now rand count i (by omega)]
    simp [Nat.add_mod_right]

/-- C2 witness: a concrete batch of 3 records with a fixed random
oracle. -/
theorem generateData_spec_w :
    (generateData 0 (fun _ => 1 / 2) 3).length = 3 :=
  (generateData_spec 0 (fun _ => 1 / 2) 3 (by norm_num) (fun i => by norm_num)).1

theorem foldl_add_eq_sum (l : List ℚ) (s : ℚ) :
    l.foldl (fun sum val => sum + val) s = s + l.sum := by
  induction l generalizing s with
  | nil => simp
  | cons v vs ih => simp [List.foldl_cons, ih, add_assoc]

theorem foldl_sq_eq (l : List ℚ) (m s : ℚ) :
    l.foldl
      (fun sum val => JsVal.add sum
        (JsVal.mul (JsVal.sub (JsVal.fin val) (JsVal.fin m))
          (JsVal.sub (JsVal.fin val) (JsVal.fin m))))
      (JsVal.fin s) =
    JsVal.fin (s + (l.map (fun v => (v - m) ^ 2)).sum) := by
  induction l generalizing s with
  | nil => simp
  | cons v vs ih =>
    simp only [List.foldl_cons, List.map_cons, List.sum_cons]
    have hstep : JsVal.add (JsVal.fin s)
        (JsVal.mul (JsVal.sub (JsVal.fin v) (JsVal.fin m))
          (JsVal.sub (JsVal.fin v) (JsVal.fin m))) =
        JsVal.fin (s + (v - m) ^ 2) := by
      simp only [JsVal.sub, JsVal.neg, JsVal.add, JsVal.mul]
      exact congrArg JsVal.fin (by ring)
    rw [hstep, ih]
    exact congrArg JsVal.fin (by ring)

theorem foldl_min_le_init (l : List ℚ) (a : ℚ) : l.foldl min a ≤ a := by
  induction l generalizing a with
  | nil => exact le_refl a
  | cons v vs ih => exact le_trans (ih (min a v)) (min_le_left a v)

theorem foldl_min_le_of_mem (l : List ℚ) (a : ℚ) (x : ℚ) (hx : x ∈ l) :
    l.foldl min a ≤ x := by
  induction l generalizing a with
  | nil => simp at hx
  | cons v vs ih =>
    rcases List.mem_cons.mp hx with rfl | hx
    · exact le_trans (foldl_min_le_init vs (min a x)) (min_le_right a x)
    · exact ih (min a v) hx

theorem foldl_min_mem (l : List ℚ) (a : ℚ) : l.foldl min a ∈ a :: l := by
  induction l generalizing a with
  | nil => simp
  | cons v vs ih =>
    have h := ih (min a v)
    rcases List.mem_cons.mp h with h | h
    · rcases min_choice a v with hc | hc <;> rw [List.foldl_cons, h, hc] <;> simp
    · simp [List.foldl_cons, List.mem_cons.mpr (Or.inr (List.mem_cons.mpr (Or.inr h)))]

theorem init_le_foldl_max (l : List ℚ) (a : ℚ) : a ≤ l.foldl max a := by
  induction l generalizing a with
  | nil => exact le_refl a
  | cons v vs ih => exact le_trans (le_max_left a v) (ih (max a v))

theorem le_foldl_max_of_mem (l : List ℚ) (a : ℚ) (x : ℚ) (hx : x ∈ l) :
    x ≤ l.foldl max a := by
  induction l generalizing a with
  | nil => simp at hx
  | cons v vs ih =>
    rcases List.mem_cons.mp hx with rfl | hx
    · exact le_trans (le_max_right a x) (init_le_foldl_max vs (max a x))
    · exact ih (max a v) hx

theorem foldl_max_mem (l : List ℚ) (a : ℚ) : l.foldl max a ∈ a :: l := by
  induction l generalizing a with
  | nil => simp
  | cons v vs ih =>
    have h := ih (max a v)
    rcases List.mem_cons.mp h with h | h
    · rcases max_choice a v with hc | hc <;> rw [List.foldl_cons, h, hc] <;> simp
    · simp [List.foldl_cons, List.mem_cons.mpr (Or.inr (List.mem_cons.mpr (Or.inr h)))]

theorem listMin_mem (values : List ℚ) (h : values ≠ []) : listMin values ∈ values := by
  cases values with
  | nil => exact absurd rfl h
  | cons v vs => exact foldl_min_mem vs v

theorem listMin_le (values : List ℚ) (x : ℚ) (hx : x ∈ values) : listMin values ≤ x := by
  cases values with
  | nil => simp at hx
  | cons v vs =>
    rcases List.mem_cons.mp hx with rfl | hx
    · exact foldl_min_le_init vs x
    · exact foldl_min_le_of_mem vs v x hx

theorem listMax_mem (values : List ℚ) (h : values ≠ []) : listMax values ∈ values := by
  cases values with
  | nil => exact absurd rfl h
  | cons v vs => exact foldl_max_mem vs v

theorem le_listMax (values : List ℚ) (x : ℚ) (hx : x ∈ values) : x ≤ listMax values := by
  cases values with
  | nil => simp at hx
  | cons v vs =>
    rcases List.mem_cons.mp hx with rfl | hx
    · exact init_le_foldl_max vs x
    · exact le_foldl_max_of_mem vs v x hx

theorem jsIdx_eq_getD (l : List ℚ) (i : ℤ) (h0 : 0 ≤ i) (h1 : i.toNat < l.length) :
    jsIdx l i = JsVal.fin (l.getD i.toNat 0) := by
  rw [jsIdx, dif_pos ⟨h0, h1⟩, List.getD_eq_getElem _ _ h1]
  rfl

theorem rat_len_ne_zero (values : List ℚ) (h : values ≠ []) : (values.length : ℚ) ≠ 0 := by
  have hp : 0 < values.length := List.length_pos.mpr h
  exact_mod_cast hp.ne'

theorem calculateStats_mean (values : List ℚ) (h : values ≠ []) :
    (calculateStats values).mean = JsVal.fin (specMean values) := by
  have hlen := rat_len_ne_zero values h
  simp [calculateStats, foldl_add_eq_sum, JsVal.div, hlen, specMean]

theorem calculateStats_min_eq (values : List ℚ) (h : values ≠ []) :
    (calculateStats values).min = JsVal.fin (listMin values) := by
  cases values with
  | nil => exact absurd rfl h
  | cons v vs => simp [calculateStats, jsMinList, listMin]

theorem calculateStats_max_eq (values : List ℚ) (h : values ≠ []) :
    (calculateStats values).max = JsVal.fin (listMax values) := by
  cases values with
  | nil => exact absurd rfl h
  | cons v vs => simp [calculateStats, jsMaxList, listMax]

theorem specVariance_nonneg (values : List ℚ) : 0 ≤ specVariance values := by
  unfold specVariance
  apply div_nonneg
  · apply List.sum_nonneg
    intro x hx
    obtain ⟨v, hv, rfl⟩ := List.mem_map.mp hx
    positivity
  · exact Nat.cast_nonneg values.length

theorem calculateStats_stdDev (values : List ℚ) (h : values ≠ []) :
    (calculateStats values).stdDev = JsVal.fin (Real.sqrt ((specVariance values : ℚ) : ℝ)) := by
  have hlen := rat_len_ne_zero values h
  have hm : JsVal.div (JsVal.fin (values.foldl (fun sum val => sum + val) 0))
      (JsVal.fin (values.length : ℚ)) = JsVal.fin (specMean values) := by
    simp [foldl_add_eq_sum, JsVal.div, hlen, specMean]
  have hv := specVariance_nonneg values
  have hdiv : JsVal.div (JsVal.fin ((values.map (fun v => (v - specMean values) ^ 2)).sum))
      (JsVal.fin (values.length : ℚ)) = JsVal.fin (specVariance values) := by
    simp [JsVal.div, hlen, specVariance]
  simp only [calculateStats, hm, foldl_sq_eq, zero_add, hdiv]
  simp [jsSqrt, not_lt.mpr hv]

theorem calculateStats_median (values : List ℚ) (h : values ≠ []) :
    (calculateStats values).median = JsVal.fin (specMedian values) := by
  have hn : values.length ≠ 0 := fun hc => h (List.eq_nil_of_length_eq_zero hc)
  have hsl : (List.insertionSort (fun a b : ℚ => a ≤ b) values).length = values.length :=
    (List.perm_insertionSort _ values).length_eq
  simp only [calculateStats, specMedian, specSorted]
  set s := List.insertionSort (fun a b : ℚ => a ≤ b) values with hs
  by_cases hpar : s.length % 2 = 0
  · have h2 : 2 ≤ s.length := by omega
    have hi20 : 0 ≤ (s.length : ℤ) / 2 := by omega
    have hi2 : ((s.length : ℤ) / 2).toNat = s.length / 2 := by omega
    have hi2lt : ((s.length : ℤ) / 2).toNat < s.length := by omega
    have hi10 : 0 ≤ (s.length : ℤ) / 2 - 1 := by omega
    have hi1 : ((s.length : ℤ) / 2 - 1).toNat = s.length / 2 - 1 := by omega
    have hi1lt : ((s.length : ℤ) / 2 - 1).toNat < s.length := by omega
    rw [if_pos hpar, if_pos hpar, jsIdx_eq_getD s _ hi10 hi1lt, jsIdx_eq_getD s _ hi20 hi2lt,
      hi1, hi2]
    simp [JsVal.add, JsVal.div]
  · have h1 : 1 ≤ s.length := by omega
    have hi0 : 0 ≤ (s.length : ℤ) / 2 := by omega
    have hiN : ((s.length : ℤ) / 2).toNat = s.length / 2 := by omega
    have hilt : ((s.length : ℤ) / 2).toNat < s.length := by omega
    rw [if_neg hpar, if_neg hpar, jsIdx_eq_getD s _ hi0 hilt, hiN]

theorem specSorted_getD_mem (values : List ℚ) (i : ℕ) (hi : i < (specSorted values).length) :
    (specSorted values).getD i 0 ∈ values := by
  rw [List.getD_eq_getElem _ _ hi]
  exact ((List.perm_insertionSort _ values).mem_iff).mp (List.getElem_mem _)

theorem specMedian_between (values : List ℚ) (h : values ≠ []) :
    listMin values ≤ specMedian values ∧ specMedian values ≤ listMax values := by
  have hn : values.length ≠ 0 := fun hc => h (List.eq_nil_of_length_eq_zero hc)
  have hsl : (specSorted values).length = values.length :=
    (List.perm_insertionSort _ values).length_eq
  simp only [specMedian]
  by_cases hpar : (specSorted values).length % 2 = 0
  · have h2 : 2 ≤ (specSorted values).length := by omega
    have ha := specSorted_getD_mem values ((specSorted values).length / 2 - 1) (by omega)
    have hb := specSorted_getD_mem values ((specSorted values).length / 2) (by omega)
    rw [if_pos hpar]
    constructor
    · have q1 := listMin_le values _ ha
      have q2 := listMin_le values _ hb
      linarith
    · have q1 := le_listMax values _ ha
      have q2 := le_listMax values _ hb
      linarith
  · have hc := specSorted_getD_mem values ((specSorted values).length / 2) (by omega)
    rw [if_neg hpar]
    exact ⟨listMin_le values _ hc, le_listMax values _ hc⟩

/-- C1: for every non-empty list of numbers `calculateStats` returns a
summary whose `mean` is the arithmetic mean, whose `stdDev` is the square
root of the population variance (average of squared deviations from the
mean, divide by N), whose `median` comes from sorting ascending and taking
the middle element (odd length) or the average of the two central
elements (even length), and whose `min`/`max` are the extrema of the
input (members of the list bounding every element); moreover
`min ≤ median ≤ max`, and `calculateStats [5]` is
`{mean: 5, min: 5, max: 5, median: 5, stdDev: 0}`. -/
theorem calculateStats_spec :
    (∀ values : List ℚ, values ≠ [] →
      (calculateStats values).mean = JsVal.fin (specMean values) ∧
      (calculateStats values).stdDev = JsVal.fin (Real.sqrt ((specVariance values : ℚ) : ℝ)) ∧
      (calculateStats values).median = JsVal.fin (specMedian values) ∧
      (calculateStats values).min = JsVal.fin (listMin values) ∧
      (calculateStats values).max = JsVal.fin (listMax values) ∧
      listMin values ∈ values ∧ (∀ x ∈ values, listMin values ≤ x) ∧
      listMax values ∈ values ∧ (∀ x ∈ values, x ≤ listMax values) ∧
      listMin values ≤ specMedian values ∧ specMedian values ≤ listMax values) ∧
    (calculateStats [5]).mean = JsVal.fin 5 ∧
    (calculateStats [5]).min = JsVal.fin 5 ∧
    (calculateStats [5]).max = JsVal.fin 5 ∧
    (calculateStats [5]).median = JsVal.fin 5 ∧
    (calculateStats [5]).stdDev = JsVal.fin 0 := by
  have h5 : ([5] : List ℚ) ≠ [] := by simp
  have hmean5 : specMean [5] = 5 := by norm_num [specMean]
  have hvar5 : specVariance [5] = 0 := by norm_num [specVariance, specMean]
  have hmed5 : specMedian [5] = 5 := by
    norm_num [specMedian, specSorted, List.insertionSort, List.orderedInsert]
  refine ⟨?_, ?_, ?_, ?_, ?_, ?_⟩
  · intro values hne
    exact ⟨calculateStats_mean values hne, calculateStats_stdDev values hne,
      calculateStats_median values hne, calculateStats_min_eq values hne,
      calculateStats_max_eq values hne, listMin_mem values hne,
      fun x hx => listMin_le values x hx, listMax_mem values hne,
      fun x hx => le_listMax values x hx, (specMedian_between values hne).1,
      (specMedian_between values hne).2⟩
  · rw [calculateStats_mean [5] h5, hmean5]
  · rw [calculateStats_min_eq [5] h5]
    norm_num [listMin]
  · rw [calculateStats_max_eq [5] h5]
    norm_num [listMax]
  · rw [calculateStats_median [5] h5, hmed5]
  · rw [calculateStats_stdDev [5] h5, hvar5]
    simp

/-- C1 witness: the summary of the concrete input `[2, 4]` has the
arithmetic mean 3. -/
theorem calculateStats_spec_w : (calculateStats [2, 4]).mean = JsVal.fin 3 := by
  have h := (calculateStats_spec.1 [2, 4] (by simp)).1
  rw [h]
  norm_num [specMean]
